import Mathlib

/-!
Shallow embedding of the transactions-engine ledger core
(src/id.rs, src/err.rs, src/tx.rs, src/deposit.rs, src/withdraw.rs,
src/dispute.rs, src/resolve.rs, src/chargeback.rs, src/account.rs,
src/db.rs).

Conventions of the embedding:
- `ClientId` (u16) and `TxId` (u32) are embedded as `Nat`; the claims use
  them only for equality, never for arithmetic.
- `rust_decimal::Decimal` is embedded as an unbounded `Int` together with a
  representability bound `decMax` (the 96-bit mantissa bound at scale 0);
  `checkedAdd` mirrors `Decimal::checked_add` (`none` on overflow) and
  `Decimal::is_sign_negative` becomes `amount < 0`.
- A Rust `assert!`/`assert_eq!` failure (process abort) is embedded as the
  `TxOut.panic` result, which produces no successor state.
- Rust `HashMap`/`HashSet` are embedded extensionally as functions
  `Nat → Option α` / `Nat → Bool`; `insert` overwrites, `remove` deletes,
  exactly as the corresponding `HashMap` operations do.
-/

namespace TxEngine

/-- Error kinds, as used across src/err.rs, src/db.rs and src/account.rs
(src/db.rs and src/account.rs additionally use `MissingTx`,
`MissingTxForClient` and `ExtraneousAmount`; `AccessLocked` appears in the
locked-account paths described by the spec). -/
inductive TxErr where
  | MissingAmount
  | NegativeAmount
  | Insufficient
  | AccessUnavailable
  | AccessLocked
  | Overflow
  | Duplicate
  | MissingTx
  | MissingTxForClient
  | ExtraneousAmount
deriving DecidableEq, Repr

/-- The largest magnitude representable by the 96-bit decimal mantissa. -/
def decMax : Int := 2 ^ 96 - 1

/-- Embedding of `Decimal::checked_add`: `none` when the sum leaves the
representable range. -/
def checkedAdd (a b : Int) : Option Int :=
  if (a + b).natAbs ≤ 2 ^ 96 - 1 then some (a + b) else none

/-- Outcome of an operation on a state of type `σ`: a fatal assertion
failure (`panic`), an error together with the state left behind by the
`&mut` borrow, or success with the new state. -/
inductive TxOut (σ : Type) where
  | panic : TxOut σ
  | err : TxErr → σ → TxOut σ
  | ok : σ → TxOut σ

/-- The error of a `TxOut`, when there is one. -/
def TxOut.errOf {σ : Type} : TxOut σ → Option TxErr
  | .panic => none
  | .err e _ => some e
  | .ok _ => none

/-- A deposit record (src/deposit.rs). The Rust `Deposit<State>` lifecycle
tag is phantom data; which lifecycle state a deposit is in is recorded by
which of the account's maps holds it. -/
structure Deposit where
  id : Nat
  client : Nat
  amount : Int
deriving DecidableEq, Repr

/-- `Deposit::new` (src/deposit.rs): rejects a sign-negative amount. -/
def Deposit.new (id client : Nat) (amount : Int) : Except TxErr Deposit :=
  if amount < 0 then .error .NegativeAmount
  else .ok { id := id, client := client, amount := amount }

/-- `Deposit::hold` (src/deposit.rs): field-for-field copy, only the
phantom state tag changes. -/
def Deposit.hold (d : Deposit) : Deposit :=
  { id := d.id, client := d.client, amount := d.amount }

/-- `Deposit::release` (src/deposit.rs): field-for-field copy. -/
def Deposit.release (d : Deposit) : Deposit :=
  { id := d.id, client := d.client, amount := d.amount }

/-- A withdrawal record (src/withdraw.rs). -/
structure Withdraw where
  id : Nat
  client : Nat
  amount : Int
deriving DecidableEq, Repr

/-- `Withdraw::new` (src/withdraw.rs): rejects a sign-negative amount. -/
def Withdraw.new (id client : Nat) (amount : Int) : Except TxErr Withdraw :=
  if amount < 0 then .error .NegativeAmount
  else .ok { id := id, client := client, amount := amount }

/-- A dispute record (src/dispute.rs). -/
structure Dispute where
  id : Nat
  client : Nat
deriving DecidableEq, Repr

/-- A resolve record (src/resolve.rs). -/
structure Resolve where
  id : Nat
  client : Nat
deriving DecidableEq, Repr

/-- A chargeback record (src/chargeback.rs). -/
structure Chargeback where
  id : Nat
  client : Nat
deriving DecidableEq, Repr

/-- Extensional embedding of `HashMap::insert` (overwrites). -/
def mapInsert {α : Type} (m : Nat → Option α) (k : Nat) (v : α) : Nat → Option α :=
  fun x => if x = k then some v else m x

/-- Extensional embedding of `HashMap::remove`. -/
def mapRemove {α : Type} (m : Nat → Option α) (k : Nat) : Nat → Option α :=
  fun x => if x = k then none else m x

/-- Extensional embedding of `HashSet::insert`. -/
def setInsert (s : Nat → Bool) (k : Nat) : Nat → Bool :=
  fun x => if x = k then true else s x

/-- A client's account (src/account.rs). The Rust lock state lives in the
type parameter `Account<State>`; in the embedding, lockedness is recorded
by which partition of the database an account lives in. -/
structure Account where
  id : Nat
  available : Int
  held : Int
  deposits : Nat → Option Deposit
  withdraws : Nat → Option Withdraw
  depositsHeld : Nat → Option Deposit

/-- `Account::new` (src/account.rs). -/
def Account.new (id : Nat) : Account :=
  { id := id, available := 0, held := 0,
    deposits := fun _ => none, withdraws := fun _ => none,
    depositsHeld := fun _ => none }

/-- `Account::total` (src/account.rs). -/
def Account.total (a : Account) : Int := a.available + a.held

/-- `Account::deposit` (src/account.rs): asserts the client matches, checks
both the total and the available for overflow, then credits `available`
and records the deposit as released. -/
def Account.deposit (a : Account) (tx : Deposit) : TxOut Account :=
  if a.id = tx.client then
    match checkedAdd a.total tx.amount with
    | none => .err .Overflow a
    | some _ =>
      match checkedAdd a.available tx.amount with
      | some sum =>
          .ok { a with available := sum, deposits := mapInsert a.deposits tx.id tx }
      | none => .err .Overflow a
  else .panic

/-- `Account::withdraw` (src/account.rs): asserts the client matches and
rejects amounts above `available`. -/
def Account.withdraw (a : Account) (tx : Withdraw) : TxOut Account :=
  if a.id = tx.client then
    if a.available < tx.amount then .err .Insufficient a
    else
      .ok { a with withdraws := mapInsert a.withdraws tx.id tx,
                   available := a.available - tx.amount }
  else .panic

/-- `Account::dispute` (src/account.rs): asserts the client matches,
removes the referenced released deposit (or fails `MissingTxForClient`),
asserts it is not also held, puts it back with `Insufficient` when its
amount exceeds `available`, and otherwise moves amount and deposit from
the available/released side to the held side. -/
def Account.dispute (a : Account) (tx : Dispute) : TxOut Account :=
  if a.id = tx.client then
    match a.deposits tx.id with
    | none => .err .MissingTxForClient a
    | some d =>
      let a1 : Account := { a with deposits := mapRemove a.deposits tx.id }
      if (a1.depositsHeld tx.id).isSome then .panic
      else if a1.available < d.amount then
        .err .Insufficient { a1 with deposits := mapInsert a1.deposits tx.id d }
      else
        .ok { a1 with available := a1.available - d.amount,
                      held := a1.held + d.amount,
                      depositsHeld := mapInsert a1.depositsHeld tx.id d.hold }
  else .panic

/-- `Account::resolve` (src/account.rs). Note: unlike deposit, withdraw
and dispute, the source performs no client assertion here; it removes the
referenced held deposit (or fails `MissingTxForClient`), asserts it is not
also released and that its amount is at most `held`, then moves amount and
deposit back to the available/released side. -/
def Account.resolve (a : Account) (tx : Resolve) : TxOut Account :=
  match a.depositsHeld tx.id with
  | none => .err .MissingTxForClient a
  | some d =>
    let a1 : Account := { a with depositsHeld := mapRemove a.depositsHeld tx.id }
    if (a1.deposits tx.id).isSome then .panic
    else if a1.held < d.amount then .panic
    else
      .ok { a1 with available := a1.available + d.amount,
                    held := a1.held - d.amount,
                    deposits := mapInsert a1.deposits tx.id d.release }

/-- Modelled from the spec: `Account::chargeback` is absent from
src/account.rs (spec §4.2 and §9 reconstruct its contract). Symmetric to
`Account::resolve`: remove the referenced held deposit (or fail
`MissingTxForClient`), decrement `held` by its amount WITHOUT crediting
`available`; the deposit transitions to the terminal reversed state and the
account is locked by the database moving it to the locked partition. -/
def Account.chargeback (a : Account) (tx : Chargeback) : TxOut Account :=
  if a.id = tx.client then
    match a.depositsHeld tx.id with
    | none => .err .MissingTxForClient a
    | some d =>
      let a1 : Account := { a with depositsHeld := mapRemove a.depositsHeld tx.id }
      if (a1.deposits tx.id).isSome then .panic
      else if a1.held < d.amount then .panic
      else .ok { a1 with held := a1.held - d.amount }
  else .panic

/-- Transaction type tags (src/tx.rs). -/
inductive TxType where
  | Deposit
  | Withdrawal
  | Dispute
  | Resolve
  | Chargeback
deriving DecidableEq, Repr

/-- A parsed input record (src/tx.rs). -/
structure Tx where
  typ : TxType
  client : Nat
  tx : Nat
  amount : Option Int
deriving DecidableEq, Repr

/-- `Tx::new_deposit` (src/tx.rs). -/
def Tx.new_deposit (tx client : Nat) (amount : Int) : Tx :=
  { typ := .Deposit, client := client, tx := tx, amount := some amount }

/-- `Tx::new_withdraw` (src/tx.rs). -/
def Tx.new_withdraw (tx client : Nat) (amount : Int) : Tx :=
  { typ := .Withdrawal, client := client, tx := tx, amount := some amount }

/-- `Tx::new_dispute` (src/tx.rs). -/
def Tx.new_dispute (tx client : Nat) : Tx :=
  { typ := .Dispute, client := client, tx := tx, amount := none }

/-- `Tx::new_resolve` (src/tx.rs). -/
def Tx.new_resolve (tx client : Nat) : Tx :=
  { typ := .Resolve, client := client, tx := tx, amount := none }

/-- `Tx::new_chargeback` (src/tx.rs). -/
def Tx.new_chargeback (tx client : Nat) : Tx :=
  { typ := .Chargeback, client := client, tx := tx, amount := none }

/-- The database (src/db.rs): unlocked accounts, locked accounts (the
locked partition is the spec's `accounts_locked`, iterated by main.rs but
absent from src/db.rs), and the set of seen transaction ids. -/
structure Db where
  accounts : Nat → Option Account
  accountsLocked : Nat → Option Account
  txIds : Nat → Bool

/-- `Db::new` (src/db.rs): empty maps and set. -/
def Db.new : Db :=
  { accounts := fun _ => none, accountsLocked := fun _ => none,
    txIds := fun _ => false }

/-- `Db::deposit` (src/db.rs): validate the amount, reject a duplicate id,
then find-or-create the account and delegate; the id is registered only on
success. The locked-partition check (`AccessLocked`) is modelled from the
spec (§4.3), placed after the duplicate check as the spec orders them. -/
def Db.deposit (db : Db) (id client : Nat) (amount : Int) : TxOut Db :=
  match Deposit.new id client amount with
  | .error e => .err e db
  | .ok tx =>
    if db.txIds id then .err .Duplicate db
    else if (db.accountsLocked client).isSome then .err .AccessLocked db
    else
      match db.accounts client with
      | some account =>
        match account.deposit tx with
        | .panic => .panic
        | .err e a1 => .err e { db with accounts := mapInsert db.accounts client a1 }
        | .ok a1 =>
            .ok { db with accounts := mapInsert db.accounts client a1,
                          txIds := setInsert db.txIds id }
      | none =>
        match (Account.new client).deposit tx with
        | .panic => .panic
        | .err e _ => .err e db
        | .ok a1 =>
            .ok { db with accounts := mapInsert db.accounts client a1,
                          txIds := setInsert db.txIds id }

/-- `Db::withdraw` (src/db.rs): validate the amount, reject a duplicate id,
fail `AccessUnavailable` when no account exists, else delegate; the id is
registered only on success. The locked-partition check is modelled from
the spec (§4.3). -/
def Db.withdraw (db : Db) (id client : Nat) (amount : Int) : TxOut Db :=
  match Withdraw.new id client amount with
  | .error e => .err e db
  | .ok tx =>
    if db.txIds id then .err .Duplicate db
    else if (db.accountsLocked client).isSome then .err .AccessLocked db
    else
      match db.accounts client with
      | some account =>
        match account.withdraw tx with
        | .panic => .panic
        | .err e a1 => .err e { db with accounts := mapInsert db.accounts client a1 }
        | .ok a1 =>
            .ok { db with accounts := mapInsert db.accounts client a1,
                          txIds := setInsert db.txIds id }
      | none => .err .AccessUnavailable db

/-- `Db::dispute` (src/db.rs): fail `MissingTx` when the id was never
registered, `AccessUnavailable` when the client has no account, else
delegate; the id is never added to the seen set. The locked-partition
check is modelled from the spec (§4.3). -/
def Db.dispute (db : Db) (id client : Nat) : TxOut Db :=
  if db.txIds id then
    if (db.accountsLocked client).isSome then .err .AccessLocked db
    else
      match db.accounts client with
      | some account =>
        match account.dispute { id := id, client := client } with
        | .panic => .panic
        | .err e a1 => .err e { db with accounts := mapInsert db.accounts client a1 }
        | .ok a1 => .ok { db with accounts := mapInsert db.accounts client a1 }
      | none => .err .AccessUnavailable db
  else .err .MissingTx db

/-- Modelled from the spec: `Db::resolve` is absent from src/db.rs
(spec §4.3: symmetric to dispute, routed to the account's state-specific
operation). -/
def Db.resolve (db : Db) (id client : Nat) : TxOut Db :=
  if db.txIds id then
    if (db.accountsLocked client).isSome then .err .AccessLocked db
    else
      match db.accounts client with
      | some account =>
        match account.resolve { id := id, client := client } with
        | .panic => .panic
        | .err e a1 => .err e { db with accounts := mapInsert db.accounts client a1 }
        | .ok a1 => .ok { db with accounts := mapInsert db.accounts client a1 }
      | none => .err .AccessUnavailable db
  else .err .MissingTx db

/-- Modelled from the spec: `Db::chargeback` is absent from src/db.rs
(spec §4.3 and §9: symmetric to dispute; on success the account moves from
the active partition to the locked partition, and locking is terminal). -/
def Db.chargeback (db : Db) (id client : Nat) : TxOut Db :=
  if db.txIds id then
    if (db.accountsLocked client).isSome then .err .AccessLocked db
    else
      match db.accounts client with
      | some account =>
        match account.chargeback { id := id, client := client } with
        | .panic => .panic
        | .err e a1 => .err e { db with accounts := mapInsert db.accounts client a1 }
        | .ok a1 =>
            .ok { db with accounts := mapRemove db.accounts client,
                          accountsLocked := mapInsert db.accountsLocked client a1 }
      | none => .err .AccessUnavailable db
  else .err .MissingTx db

/-- `Db::process` (src/db.rs): dispatch on the record tag after checking
the amount is present (deposit/withdrawal) or absent (the other three).
The `Resolve` and `Chargeback` arms are absent from src/db.rs and are
modelled from the spec (§4.3). -/
def Db.process (db : Db) (tx : Tx) : TxOut Db :=
  match tx.typ with
  | .Deposit =>
    match tx.amount with
    | none => .err .MissingAmount db
    | some amount => db.deposit tx.tx tx.client amount
  | .Withdrawal =>
    match tx.amount with
    | none => .err .MissingAmount db
    | some amount => db.withdraw tx.tx tx.client amount
  | .Dispute =>
    match tx.amount with
    | some _ => .err .ExtraneousAmount db
    | none => db.dispute tx.tx tx.client
  | .Resolve =>
    match tx.amount with
    | some _ => .err .ExtraneousAmount db
    | none => db.resolve tx.tx tx.client
  | .Chargeback =>
    match tx.amount with
    | some _ => .err .ExtraneousAmount db
    | none => db.chargeback tx.tx tx.client

/-- The state after processing one record, when the run does not abort. -/
def Db.after (db : Db) (tx : Tx) : Option Db :=
  match db.process tx with
  | .panic => none
  | .err _ db1 => some db1
  | .ok db1 => some db1

/-- Convenience for concrete runs: after, defaulting to the input state
(used only on runs that do not panic). -/
def Db.applyD (db : Db) (tx : Tx) : Db := (db.after tx).getD db

/-- The states reachable from `Db::new` by any sequence of `Db::process`
calls (successful or failing). -/
inductive Db.Reachable : Db → Prop where
  | init : Db.Reachable Db.new
  | step {db : Db} {tx : Tx} {db1 : Db} :
      Db.Reachable db → db.after tx = some db1 → Db.Reachable db1

/-- Well-formedness of an account relative to the set `t` of seen
transaction ids: balances are non-negative, no transaction id is both
released and held, and every recorded deposit has a non-negative amount
and a registered id. -/
def Account.Wf (t : Nat → Bool) (a : Account) : Prop :=
  0 ≤ a.available ∧ 0 ≤ a.held ∧
  (∀ i, ¬((a.deposits i).isSome = true ∧ (a.depositsHeld i).isSome = true)) ∧
  (∀ i d, a.deposits i = some d → 0 ≤ d.amount ∧ t i = true) ∧
  (∀ i d, a.depositsHeld i = some d → 0 ≤ d.amount ∧ t i = true)

/-- The database invariant: every account, active or locked, is
well-formed relative to the seen-ids set. -/
def Db.Inv (db : Db) : Prop :=
  (∀ c a, db.accounts c = some a → a.Wf db.txIds) ∧
  (∀ c a, db.accountsLocked c = some a → a.Wf db.txIds)

/-- Multi-step reachability from an arbitrary starting state. -/
inductive Db.ReachFrom : Db → Db → Prop where
  | refl (db : Db) : Db.ReachFrom db db
  | step {db db1 db2 : Db} {tx : Tx} :
      Db.ReachFrom db db1 → db1.after tx = some db2 → Db.ReachFrom db db2

/-- The payload of a successful `TxOut`, with a default for the other
constructors (used only to name concrete run results). -/
def TxOut.okOf {σ : Type} (s : TxOut σ) (d : σ) : σ :=
  match s with
  | .ok a => a
  | _ => d

/-- Concrete run: one successful deposit of 5 by client 1 with tx id 1. -/
def dbDep1 : Db := Db.new.applyD (Tx.new_deposit 1 1 5)

/-- The account created by the run `dbDep1`. -/
def accDep1 : Account := (dbDep1.accounts 1).getD (Account.new 0)

/-- Concrete run: `dbDep1` followed by a successful dispute of tx 1. -/
def dbDisp1 : Db := dbDep1.applyD (Tx.new_dispute 1 1)

/-- Concrete run: `dbDisp1` followed by a successful chargeback of tx 1,
which locks the account of client 1. -/
def dbLock1 : Db := dbDisp1.applyD (Tx.new_chargeback 1 1)

/-- The locked account of client 1 in `dbLock1`. -/
def accLock1 : Account := (dbLock1.accountsLocked 1).getD (Account.new 0)

/-- Concrete run: `dbDep1` followed by a withdrawal of 3 (available drops
to 2, below the deposited 5). -/
def dbWd1 : Db := dbDep1.applyD (Tx.new_withdraw 2 1 3)

/-- The state carried by the `Insufficient` error of disputing tx 1 on
`dbWd1` (the deposit is removed and put back). -/
def dbWd1d : Db := (dbWd1.after (Tx.new_dispute 1 1)).getD dbWd1

/-- The result of depositing 5 into a fresh account for client 1. -/
def accW7 : Account :=
  ((Account.new 1).deposit { id := 1, client := 1, amount := 5 }).okOf (Account.new 0)

/-- An account for client 1 whose deposit of tx 1 (amount 5) is under
dispute: `available = 0`, `held = 5`. -/
def accC10 : Account :=
  { id := 1, available := 0, held := 5,
    deposits := fun _ => none, withdraws := fun _ => none,
    depositsHeld := fun i =>
      if i = 1 then some { id := 1, client := 1, amount := 5 } else none }

/-- The result of `Account::resolve` on `accC10` with a mismatched client
field. -/
def accC10res : Account :=
  (accC10.resolve { id := 1, client := 2 }).okOf (Account.new 0)

/-! ## Basic lemmas about the map and decimal embeddings -/

theorem mapInsert_eval {α : Type} (m : Nat → Option α) (k : Nat) (v : α) (x : Nat) :
    mapInsert m k v x = if x = k then some v else m x := rfl

theorem mapRemove_eval {α : Type} (m : Nat → Option α) (k : Nat) (x : Nat) :
    mapRemove m k x = if x = k then none else m x := rfl

theorem mapInsert_self {α : Type} {m : Nat → Option α} {k : Nat} {v : α}
    (h : m k = some v) : mapInsert m k v = m := by
  funext x
  by_cases hx : x = k
  · subst hx; simp [mapInsert, h]
  · simp [mapInsert, hx]

theorem mapInsert_mapRemove {α : Type} {m : Nat → Option α} {k : Nat} {v : α}
    (h : m k = some v) : mapInsert (mapRemove m k) k v = m := by
  funext x
  by_cases hx : x = k
  · subst hx; simp [mapInsert, mapRemove, h]
  · simp [mapInsert, mapRemove, hx]

theorem checkedAdd_some {a b s : Int} (h : checkedAdd a b = some s) : s = a + b := by
  unfold checkedAdd at h
  split at h <;> simp_all

/-! ## Inversion lemmas for the Account operations -/

theorem Account.deposit_err {a : Account} {tx : Deposit} {e : TxErr} {a1 : Account}
    (h : a.deposit tx = .err e a1) : a1 = a ∧ e = .Overflow := by
  unfold Account.deposit at h
  split at h
  · split at h
    · cases h; exact ⟨rfl, rfl⟩
    · split at h
      · cases h
      · cases h; exact ⟨rfl, rfl⟩
  · cases h

theorem Account.deposit_ok {a : Account} {tx : Deposit} {a1 : Account}
    (h : a.deposit tx = .ok a1) :
    a.id = tx.client ∧ checkedAdd a.total tx.amount ≠ none ∧
      a1 = { a with available := a.available + tx.amount,
                    deposits := mapInsert a.deposits tx.id tx } := by
  unfold Account.deposit at h
  split at h
  · rename_i hid
    split at h
    · cases h
    · rename_i hca
      split at h
      · rename_i sum hsum
        cases h
        exact ⟨hid, by simp [hca], by rw [checkedAdd_some hsum]⟩
      · cases h
  · cases h

theorem Account.withdraw_err {a : Account} {tx : Withdraw} {e : TxErr} {a1 : Account}
    (h : a.withdraw tx = .err e a1) : a1 = a ∧ e = .Insufficient := by
  unfold Account.withdraw at h
  split at h
  · split at h
    · cases h; exact ⟨rfl, rfl⟩
    · cases h
  · cases h

theorem Account.withdraw_ok {a : Account} {tx : Withdraw} {a1 : Account}
    (h : a.withdraw tx = .ok a1) :
    a.id = tx.client ∧ tx.amount ≤ a.available ∧
      a1 = { a with available := a.available - tx.amount,
                    withdraws := mapInsert a.withdraws tx.id tx } := by
  unfold Account.withdraw at h
  split at h
  · rename_i hid
    split at h
    · cases h
    · rename_i hin
      cases h
      exact ⟨hid, by omega, rfl⟩
  · cases h

theorem Account.dispute_err {a : Account} {tx : Dispute} {e : TxErr} {a1 : Account}
    (h : a.dispute tx = .err e a1) : a1 = a := by
  unfold Account.dispute at h
  dsimp only at h
  split at h
  · split at h
    · cases h; rfl
    · rename_i d hd
      split at h
      · cases h
      · split at h
        · cases h
          have hins := mapInsert_mapRemove (m := a.deposits) (k := tx.id) (v := d) hd
          cases a
          simp_all
        · cases h
  · cases h

theorem Account.dispute_ok {a : Account} {tx : Dispute} {a1 : Account}
    (h : a.dispute tx = .ok a1) :
    a.id = tx.client ∧
      ∃ d, a.deposits tx.id = some d ∧ d.amount ≤ a.available ∧
        a.depositsHeld tx.id = none ∧
        a1 = { a with available := a.available - d.amount,
                      held := a.held + d.amount,
                      deposits := mapRemove a.deposits tx.id,
                      depositsHeld := mapInsert a.depositsHeld tx.id d.hold } := by
  unfold Account.dispute at h
  dsimp only at h
  split at h
  · rename_i hid
    split at h
    · cases h
    · rename_i d hd
      split at h
      · cases h
      · rename_i hheld
        split at h
        · cases h
        · rename_i hin
          cases h
          refine ⟨hid, d, hd, by omega, ?_, rfl⟩
          simpa using hheld
  · cases h

theorem Account.resolve_err {a : Account} {tx : Resolve} {e : TxErr} {a1 : Account}
    (h : a.resolve tx = .err e a1) : a1 = a ∧ e = .MissingTxForClient := by
  unfold Account.resolve at h
  dsimp only at h
  split at h
  · cases h; exact ⟨rfl, rfl⟩
  · split at h
    · cases h
    · split at h
      · cases h
      · cases h

theorem Account.resolve_ok {a : Account} {tx : Resolve} {a1 : Account}
    (h : a.resolve tx = .ok a1) :
    ∃ d, a.depositsHeld tx.id = some d ∧ d.amount ≤ a.held ∧
      a.deposits tx.id = none ∧
      a1 = { a with available := a.available + d.amount,
                    held := a.held - d.amount,
                    deposits := mapInsert a.deposits tx.id d.release,
                    depositsHeld := mapRemove a.depositsHeld tx.id } := by
  unfold Account.resolve at h
  dsimp only at h
  split at h
  · cases h
  · rename_i d hd
    split at h
    · cases h
    · rename_i hrel
      split at h
      · cases h
      · rename_i hin
        cases h
        refine ⟨d, hd, by omega, ?_, ?_⟩
        · simpa [mapRemove] using hrel
        · have : mapRemove a.deposits tx.id = a.deposits := by
            funext x
            by_cases hx : x = tx.id
            · subst hx
              simp only [mapRemove, if_pos rfl]
              have : (a.deposits tx.id).isSome = false := by
                simpa [mapRemove] using hrel
              cases hh : a.deposits tx.id
              · rfl
              · rw [hh] at this; cases this
            · simp [mapRemove, hx]
          simp_all

theorem Account.chargeback_err {a : Account} {tx : Chargeback} {e : TxErr} {a1 : Account}
    (h : a.chargeback tx = .err e a1) : a1 = a ∧ e = .MissingTxForClient := by
  unfold Account.chargeback at h
  dsimp only at h
  split at h
  · split at h
    · cases h; exact ⟨rfl, rfl⟩
    · split at h
      · cases h
      · split at h
        · cases h
        · cases h
  · cases h

theorem Account.chargeback_ok {a : Account} {tx : Chargeback} {a1 : Account}
    (h : a.chargeback tx = .ok a1) :
    a.id = tx.client ∧
      ∃ d, a.depositsHeld tx.id = some d ∧ d.amount ≤ a.held ∧
        a1 = { a with held := a.held - d.amount,
                      depositsHeld := mapRemove a.depositsHeld tx.id } := by
  unfold Account.chargeback at h
  dsimp only at h
  split at h
  · rename_i hid
    split at h
    · cases h
    · rename_i d hd
      split at h
      · cases h
      · rename_i hin
        split at h
        · cases h
        · cases h
          exact ⟨hid, d, hd, by omega, rfl⟩
  · cases h

/-! ## Inversion lemmas for the Db operations -/

theorem Db.deposit_err_inv {db : Db} {id client : Nat} {amount : Int} {e : TxErr} {db1 : Db}
    (h : db.deposit id client amount = .err e db1) : db1 = db := by
  unfold Db.deposit at h
  split at h
  · cases h; rfl
  · split at h
    · cases h; rfl
    · split at h
      · cases h; rfl
      · split at h
        · rename_i account hacct
          split at h
          · cases h
          · rename_i a1 hdep
            cases h
            rw [(Account.deposit_err hdep).1, mapInsert_self hacct]
          · cases h
        · split at h
          · cases h
          · cases h; rfl
          · cases h

theorem Db.deposit_ok_inv {db : Db} {id client : Nat} {amount : Int} {db1 : Db}
    (h : db.deposit id client amount = .ok db1) :
    ¬amount < 0 ∧ db.txIds id = false ∧ (db.accountsLocked client).isSome = false ∧
      ∃ a1, db1 = { db with accounts := mapInsert db.accounts client a1,
                            txIds := setInsert db.txIds id } ∧
        ((∃ account, db.accounts client = some account ∧
            account.deposit { id := id, client := client, amount := amount } = .ok a1) ∨
          (db.accounts client = none ∧
            (Account.new client).deposit { id := id, client := client, amount := amount } = .ok a1)) := by
  unfold Db.deposit at h
  split at h
  · cases h
  · rename_i tx hnew
    unfold Deposit.new at hnew
    split at hnew
    · cases hnew
    · rename_i hamt
      cases hnew
      split at h
      · cases h
      · split at h
        · cases h
        · rename_i hids hlock
          split at h
          · rename_i account hacct
            split at h
            · cases h
            · cases h
            · rename_i a1 hdep
              cases h
              exact ⟨hamt, by simpa using hids, by simpa using hlock,
                a1, rfl, .inl ⟨account, hacct, hdep⟩⟩
          · rename_i hacct
            split at h
            · cases h
            · cases h
            · rename_i a1 hdep
              cases h
              exact ⟨hamt, by simpa using hids, by simpa using hlock,
                a1, rfl, .inr ⟨hacct, hdep⟩⟩

theorem Db.withdraw_err_inv {db : Db} {id client : Nat} {amount : Int} {e : TxErr} {db1 : Db}
    (h : db.withdraw id client amount = .err e db1) : db1 = db := by
  unfold Db.withdraw at h
  split at h
  · cases h; rfl
  · split at h
    · cases h; rfl
    · split at h
      · cases h; rfl
      · split at h
        · rename_i account hacct
          split at h
          · cases h
          · rename_i a1 hw
            cases h
            rw [(Account.withdraw_err hw).1, mapInsert_self hacct]
          · cases h
        · cases h; rfl

theorem Db.withdraw_ok_inv {db : Db} {id client : Nat} {amount : Int} {db1 : Db}
    (h : db.withdraw id client amount = .ok db1) :
    ¬amount < 0 ∧ db.txIds id = false ∧ (db.accountsLocked client).isSome = false ∧
      ∃ account a1, db.accounts client = some account ∧
        account.withdraw { id := id, client := client, amount := amount } = .ok a1 ∧
        db1 = { db with accounts := mapInsert db.accounts client a1,
                        txIds := setInsert db.txIds id } := by
  unfold Db.withdraw at h
  split at h
  · cases h
  · rename_i tx hnew
    unfold Withdraw.new at hnew
    split at hnew
    · cases hnew
    · rename_i hamt
      cases hnew
      split at h
      · cases h
      · split at h
        · cases h
        · rename_i hids hlock
          split at h
          · rename_i account hacct
            split at h
            · cases h
            · cases h
            · rename_i a1 hw
              cases h
              exact ⟨hamt, by simpa using hids, by simpa using hlock,
                account, a1, hacct, hw, rfl⟩
          · cases h

theorem Db.dispute_err_inv {db : Db} {id client : Nat} {e : TxErr} {db1 : Db}
    (h : db.dispute id client = .err e db1) : db1 = db := by
  unfold Db.dispute at h
  split at h
  · split at h
    · cases h; rfl
    · split at h
      · rename_i account hacct
        split at h
        · cases h
        · rename_i a1 hd
          cases h
          rw [Account.dispute_err hd, mapInsert_self hacct]
        · cases h
      · cases h; rfl
  · cases h; rfl

theorem Db.dispute_ok_inv {db : Db} {id client : Nat} {db1 : Db}
    (h : db.dispute id client = .ok db1) :
    db.txIds id = true ∧ (db.accountsLocked client).isSome = false ∧
      ∃ account a1, db.accounts client = some account ∧
        account.dispute { id := id, client := client } = .ok a1 ∧
        db1 = { db with accounts := mapInsert db.accounts client a1 } := by
  unfold Db.dispute at h
  split at h
  · rename_i hids
    split at h
    · cases h
    · rename_i hlock
      split at h
      · rename_i account hacct
        split at h
        · cases h
        · cases h
        · rename_i a1 hd
          cases h
          exact ⟨hids, by simpa using hlock, account, a1, hacct, hd, rfl⟩
      · cases h
  · cases h

theorem Db.resolve_err_inv {db : Db} {id client : Nat} {e : TxErr} {db1 : Db}
    (h : db.resolve id client = .err e db1) : db1 = db := by
  unfold Db.resolve at h
  split at h
  · split at h
    · cases h; rfl
    · split at h
      · rename_i account hacct
        split at h
        · cases h
        · rename_i a1 hr
          cases h
          rw [(Account.resolve_err hr).1, mapInsert_self hacct]
        · cases h
      · cases h; rfl
  · cases h; rfl

theorem Db.resolve_ok_inv {db : Db} {id client : Nat} {db1 : Db}
    (h : db.resolve id client = .ok db1) :
    db.txIds id = true ∧ (db.accountsLocked client).isSome = false ∧
      ∃ account a1, db.accounts client = some account ∧
        account.resolve { id := id, client := client } = .ok a1 ∧
        db1 = { db with accounts := mapInsert db.accounts client a1 } := by
  unfold Db.resolve at h
  split at h
  · rename_i hids
    split at h
    · cases h
    · rename_i hlock
      split at h
      · rename_i account hacct
        split at h
        · cases h
        · cases h
        · rename_i a1 hr
          cases h
          exact ⟨hids, by simpa using hlock, account, a1, hacct, hr, rfl⟩
      · cases h
  · cases h

theorem Db.chargeback_err_inv {db : Db} {id client : Nat} {e : TxErr} {db1 : Db}
    (h : db.chargeback id client = .err e db1) : db1 = db := by
  unfold Db.chargeback at h
  split at h
  · split at h
    · cases h; rfl
    · split at h
      · rename_i account hacct
        split at h
        · cases h
        · rename_i a1 hc
          cases h
          rw [(Account.chargeback_err hc).1, mapInsert_self hacct]
        · cases h
      · cases h; rfl
  · cases h; rfl

theorem Db.chargeback_ok_inv {db : Db} {id client : Nat} {db1 : Db}
    (h : db.chargeback id client = .ok db1) :
    db.txIds id = true ∧ (db.accountsLocked client).isSome = false ∧
      ∃ account a1, db.accounts client = some account ∧
        account.chargeback { id := id, client := client } = .ok a1 ∧
        db1 = { db with accounts := mapRemove db.accounts client,
                        accountsLocked := mapInsert db.accountsLocked client a1 } := by
  unfold Db.chargeback at h
  split at h
  · rename_i hids
    split at h
    · cases h
    · rename_i hlock
      split at h
      · rename_i account hacct
        split at h
        · cases h
        · cases h
        · rename_i a1 hc
          cases h
          exact ⟨hids, by simpa using hlock, account, a1, hacct, hc, rfl⟩
      · cases h
  · cases h

theorem Db.process_err {db : Db} {tx : Tx} {e : TxErr} {db1 : Db}
    (h : db.process tx = .err e db1) : db1 = db := by
  unfold Db.process at h
  split at h <;> split at h
  · cases h; rfl
  · exact Db.deposit_err_inv h
  · cases h; rfl
  · exact Db.withdraw_err_inv h
  · cases h; rfl
  · exact Db.dispute_err_inv h
  · cases h; rfl
  · exact Db.resolve_err_inv h
  · cases h; rfl
  · exact Db.chargeback_err_inv h

theorem Db.after_some {db : Db} {tx : Tx} {db1 : Db} (h : db.after tx = some db1) :
    db.process tx = .ok db1 ∨ ∃ e, db.process tx = .err e db1 := by
  unfold Db.after at h
  split at h
  · cases h
  · rename_i e db2 hp
    cases h
    exact .inr ⟨e, hp⟩
  · rename_i db2 hp
    cases h
    exact .inl hp

theorem setInsert_self (t : Nat → Bool) (k : Nat) : setInsert t k k = true := by
  simp [setInsert]

theorem setInsert_mono {t : Nat → Bool} {i : Nat} (k : Nat) (h : t i = true) :
    setInsert t k i = true := by
  unfold setInsert
  split <;> simp [h]

theorem mapInsert_at {α : Type} (m : Nat → Option α) (k : Nat) (v : α) :
    mapInsert m k v k = some v := by simp [mapInsert]

theorem mapInsert_ne {α : Type} {m : Nat → Option α} {k : Nat} {v : α} {x : Nat}
    (h : x ≠ k) : mapInsert m k v x = m x := by simp [mapInsert, h]

theorem mapRemove_at {α : Type} (m : Nat → Option α) (k : Nat) :
    mapRemove m k k = none := by simp [mapRemove]

theorem mapRemove_ne {α : Type} {m : Nat → Option α} {k x : Nat}
    (h : x ≠ k) : mapRemove m k x = m x := by simp [mapRemove, h]

/-! ## The per-account well-formedness invariant -/

theorem Account.Wf.mono {t t' : Nat → Bool} (ht : ∀ i, t i = true → t' i = true)
    {a : Account} (h : a.Wf t) : a.Wf t' := by
  obtain ⟨h1, h2, h3, h4, h5⟩ := h
  exact ⟨h1, h2, h3,
    fun i d hd => ⟨(h4 i d hd).1, ht i (h4 i d hd).2⟩,
    fun i d hd => ⟨(h5 i d hd).1, ht i (h5 i d hd).2⟩⟩

theorem Account.Wf.newAccount (t : Nat → Bool) (c : Nat) : (Account.new c).Wf t := by
  refine ⟨le_refl 0, le_refl 0, ?_, ?_, ?_⟩ <;> simp [Account.new]

theorem Account.Wf.of_deposit {t : Nat → Bool} {a : Account} {tx : Deposit} {a1 : Account}
    (hwf : a.Wf t) (hok : a.deposit tx = .ok a1) (hamt : 0 ≤ tx.amount)
    (hfresh : t tx.id = false) : a1.Wf (setInsert t tx.id) := by
  obtain ⟨h1, h2, h3, h4, h5⟩ := hwf
  obtain ⟨hid, -, hdb1⟩ := Account.deposit_ok hok
  have hav : a1.available = a.available + tx.amount := by rw [hdb1]
  have hhe : a1.held = a.held := by rw [hdb1]
  have hdep : a1.deposits = mapInsert a.deposits tx.id tx := by rw [hdb1]
  have hhld : a1.depositsHeld = a.depositsHeld := by rw [hdb1]
  refine ⟨?_, ?_, ?_, ?_, ?_⟩
  · rw [hav]; omega
  · rw [hhe]; exact h2
  · intro i
    rw [hdep, hhld]
    by_cases hix : i = tx.id
    · subst hix
      rw [mapInsert_at]
      rintro ⟨-, hh⟩
      rcases hhd : a.depositsHeld tx.id with - | d
      · rw [hhd] at hh; simp at hh
      · exact absurd (h5 tx.id d hhd).2 (by simp [hfresh])
    · rw [mapInsert_ne hix]
      exact h3 i
  · intro i d hd
    rw [hdep] at hd
    by_cases hix : i = tx.id
    · subst hix
      rw [mapInsert_at] at hd
      cases hd
      exact ⟨hamt, setInsert_self t tx.id⟩
    · rw [mapInsert_ne hix] at hd
      exact ⟨(h4 i d hd).1, setInsert_mono tx.id (h4 i d hd).2⟩
  · intro i d hd
    rw [hhld] at hd
    exact ⟨(h5 i d hd).1, setInsert_mono tx.id (h5 i d hd).2⟩

theorem Account.Wf.of_withdraw {t : Nat → Bool} {a : Account} {tx : Withdraw} {a1 : Account}
    (hwf : a.Wf t) (hok : a.withdraw tx = .ok a1) : a1.Wf (setInsert t tx.id) := by
  obtain ⟨h1, h2, h3, h4, h5⟩ := hwf
  obtain ⟨hid, hle, hdb1⟩ := Account.withdraw_ok hok
  have hav : a1.available = a.available - tx.amount := by rw [hdb1]
  have hhe : a1.held = a.held := by rw [hdb1]
  have hdep : a1.deposits = a.deposits := by rw [hdb1]
  have hhld : a1.depositsHeld = a.depositsHeld := by rw [hdb1]
  refine ⟨?_, ?_, ?_, ?_, ?_⟩
  · rw [hav]; omega
  · rw [hhe]; exact h2
  · intro i
    rw [hdep, hhld]
    exact h3 i
  · intro i d hd
    rw [hdep] at hd
    exact ⟨(h4 i d hd).1, setInsert_mono tx.id (h4 i d hd).2⟩
  · intro i d hd
    rw [hhld] at hd
    exact ⟨(h5 i d hd).1, setInsert_mono tx.id (h5 i d hd).2⟩

theorem Account.Wf.of_dispute {t : Nat → Bool} {a : Account} {tx : Dispute} {a1 : Account}
    (hwf : a.Wf t) (hok : a.dispute tx = .ok a1) : a1.Wf t := by
  obtain ⟨h1, h2, h3, h4, h5⟩ := hwf
  obtain ⟨hid, d, hd, hle, hheld, hdb1⟩ := Account.dispute_ok hok
  have hdnn : 0 ≤ d.amount := (h4 tx.id d hd).1
  have hav : a1.available = a.available - d.amount := by rw [hdb1]
  have hhe : a1.held = a.held + d.amount := by rw [hdb1]
  have hdep : a1.deposits = mapRemove a.deposits tx.id := by rw [hdb1]
  have hhld : a1.depositsHeld = mapInsert a.depositsHeld tx.id d.hold := by rw [hdb1]
  refine ⟨?_, ?_, ?_, ?_, ?_⟩
  · rw [hav]; omega
  · rw [hhe]; omega
  · intro i
    rw [hdep, hhld]
    by_cases hix : i = tx.id
    · subst hix
      rw [mapRemove_at]
      rintro ⟨hx, -⟩
      simp at hx
    · rw [mapRemove_ne hix, mapInsert_ne hix]
      exact h3 i
  · intro i d2 hd2
    rw [hdep] at hd2
    by_cases hix : i = tx.id
    · subst hix
      rw [mapRemove_at] at hd2
      cases hd2
    · rw [mapRemove_ne hix] at hd2
      exact h4 i d2 hd2
  · intro i d2 hd2
    rw [hhld] at hd2
    by_cases hix : i = tx.id
    · subst hix
      rw [mapInsert_at] at hd2
      cases hd2
      exact ⟨hdnn, (h4 tx.id d hd).2⟩
    · rw [mapInsert_ne hix] at hd2
      exact h5 i d2 hd2

theorem Account.Wf.of_resolve {t : Nat → Bool} {a : Account} {tx : Resolve} {a1 : Account}
    (hwf : a.Wf t) (hok : a.resolve tx = .ok a1) : a1.Wf t := by
  obtain ⟨h1, h2, h3, h4, h5⟩ := hwf
  obtain ⟨d, hd, hle, hdep0, hdb1⟩ := Account.resolve_ok hok
  have hdnn : 0 ≤ d.amount := (h5 tx.id d hd).1
  have hav : a1.available = a.available + d.amount := by rw [hdb1]
  have hhe : a1.held = a.held - d.amount := by rw [hdb1]
  have hdep : a1.deposits = mapInsert a.deposits tx.id d.release := by rw [hdb1]
  have hhld : a1.depositsHeld = mapRemove a.depositsHeld tx.id := by rw [hdb1]
  refine ⟨?_, ?_, ?_, ?_, ?_⟩
  · rw [hav]; omega
  · rw [hhe]; omega
  · intro i
    rw [hdep, hhld]
    by_cases hix : i = tx.id
    · subst hix
      rw [mapRemove_at]
      rintro ⟨-, hx⟩
      simp at hx
    · rw [mapRemove_ne hix, mapInsert_ne hix]
      exact h3 i
  · intro i d2 hd2
    rw [hdep] at hd2
    by_cases hix : i = tx.id
    · subst hix
      rw [mapInsert_at] at hd2
      cases hd2
      exact ⟨hdnn, (h5 tx.id d hd).2⟩
    · rw [mapInsert_ne hix] at hd2
      exact h4 i d2 hd2
  · intro i d2 hd2
    rw [hhld] at hd2
    by_cases hix : i = tx.id
    · subst hix
      rw [mapRemove_at] at hd2
      cases hd2
    · rw [mapRemove_ne hix] at hd2
      exact h5 i d2 hd2

theorem Account.Wf.of_chargeback {t : Nat → Bool} {a : Account} {tx : Chargeback} {a1 : Account}
    (hwf : a.Wf t) (hok : a.chargeback tx = .ok a1) : a1.Wf t := by
  obtain ⟨h1, h2, h3, h4, h5⟩ := hwf
  obtain ⟨hid, d, hd, hle, hdb1⟩ := Account.chargeback_ok hok
  have hav : a1.available = a.available := by rw [hdb1]
  have hhe : a1.held = a.held - d.amount := by rw [hdb1]
  have hdep : a1.deposits = a.deposits := by rw [hdb1]
  have hhld : a1.depositsHeld = mapRemove a.depositsHeld tx.id := by rw [hdb1]
  refine ⟨?_, ?_, ?_, ?_, ?_⟩
  · rw [hav]; exact h1
  · rw [hhe]; omega
  · intro i
    rw [hdep, hhld]
    by_cases hix : i = tx.id
    · subst hix
      rw [mapRemove_at]
      rintro ⟨-, hx⟩
      simp at hx
    · rw [mapRemove_ne hix]
      exact h3 i
  · intro i d2 hd2
    rw [hdep] at hd2
    exact h4 i d2 hd2
  · intro i d2 hd2
    rw [hhld] at hd2
    by_cases hix : i = tx.id
    · subst hix
      rw [mapRemove_at] at hd2
      cases hd2
    · rw [mapRemove_ne hix] at hd2
      exact h5 i d2 hd2

/-! ## The database invariant and its preservation -/

theorem Db.Inv.newDb : Db.new.Inv := by
  constructor <;> intro c a h <;> simp [Db.new] at h

theorem Db.Inv.keep_deposit {db : Db} (hinv : db.Inv) {id client : Nat} {amount : Int}
    {db1 : Db} (h : db.deposit id client amount = .ok db1) : db1.Inv := by
  obtain ⟨hacc, hlk⟩ := hinv
  obtain ⟨hamt, hfresh, hlock, a1, hdb1, hcase⟩ := Db.deposit_ok_inv h
  have haccounts : db1.accounts = mapInsert db.accounts client a1 := by rw [hdb1]
  have hlocked : db1.accountsLocked = db.accountsLocked := by rw [hdb1]
  have htx : db1.txIds = setInsert db.txIds id := by rw [hdb1]
  have hamt2 : (0 : Int) ≤ amount := by omega
  constructor
  · intro c a hca
    rw [haccounts] at hca
    rw [htx]
    by_cases hcx : c = client
    · subst hcx
      rw [mapInsert_at] at hca
      cases hca
      rcases hcase with ⟨account, hacct, hdep⟩ | ⟨hacct, hdep⟩
      · exact Account.Wf.of_deposit (hacc c account hacct) hdep hamt2 hfresh
      · exact Account.Wf.of_deposit (Account.Wf.newAccount db.txIds c) hdep hamt2 hfresh
    · rw [mapInsert_ne hcx] at hca
      exact (hacc c a hca).mono (fun i hi => setInsert_mono id hi)
  · intro c a hca
    rw [hlocked] at hca
    rw [htx]
    exact (hlk c a hca).mono (fun i hi => setInsert_mono id hi)

theorem Db.Inv.keep_withdraw {db : Db} (hinv : db.Inv) {id client : Nat} {amount : Int}
    {db1 : Db} (h : db.withdraw id client amount = .ok db1) : db1.Inv := by
  obtain ⟨hacc, hlk⟩ := hinv
  obtain ⟨hamt, hfresh, hlock, account, a1, hacct, hw, hdb1⟩ := Db.withdraw_ok_inv h
  have haccounts : db1.accounts = mapInsert db.accounts client a1 := by rw [hdb1]
  have hlocked : db1.accountsLocked = db.accountsLocked := by rw [hdb1]
  have htx : db1.txIds = setInsert db.txIds id := by rw [hdb1]
  constructor
  · intro c a hca
    rw [haccounts] at hca
    rw [htx]
    by_cases hcx : c = client
    · subst hcx
      rw [mapInsert_at] at hca
      cases hca
      exact Account.Wf.of_withdraw (hacc c account hacct) hw
    · rw [mapInsert_ne hcx] at hca
      exact (hacc c a hca).mono (fun i hi => setInsert_mono id hi)
  · intro c a hca
    rw [hlocked] at hca
    rw [htx]
    exact (hlk c a hca).mono (fun i hi => setInsert_mono id hi)

theorem Db.Inv.keep_dispute {db : Db} (hinv : db.Inv) {id client : Nat}
    {db1 : Db} (h : db.dispute id client = .ok db1) : db1.Inv := by
  obtain ⟨hacc, hlk⟩ := hinv
  obtain ⟨hids, hlock, account, a1, hacct, hd, hdb1⟩ := Db.dispute_ok_inv h
  have haccounts : db1.accounts = mapInsert db.accounts client a1 := by rw [hdb1]
  have hlocked : db1.accountsLocked = db.accountsLocked := by rw [hdb1]
  have htx : db1.txIds = db.txIds := by rw [hdb1]
  constructor
  · intro c a hca
    rw [haccounts] at hca
    rw [htx]
    by_cases hcx : c = client
    · subst hcx
      rw [mapInsert_at] at hca
      cases hca
      exact Account.Wf.of_dispute (hacc c account hacct) hd
    · rw [mapInsert_ne hcx] at hca
      exact hacc c a hca
  · intro c a hca
    rw [hlocked] at hca
    rw [htx]
    exact hlk c a hca

theorem Db.Inv.keep_resolve {db : Db} (hinv : db.Inv) {id client : Nat}
    {db1 : Db} (h : db.resolve id client = .ok db1) : db1.Inv := by
  obtain ⟨hacc, hlk⟩ := hinv
  obtain ⟨hids, hlock, account, a1, hacct, hr, hdb1⟩ := Db.resolve_ok_inv h
  have haccounts : db1.accounts = mapInsert db.accounts client a1 := by rw [hdb1]
  have hlocked : db1.accountsLocked = db.accountsLocked := by rw [hdb1]
  have htx : db1.txIds = db.txIds := by rw [hdb1]
  constructor
  · intro c a hca
    rw [haccounts] at hca
    rw [htx]
    by_cases hcx : c = client
    · subst hcx
      rw [mapInsert_at] at hca
      cases hca
      exact Account.Wf.of_resolve (hacc c account hacct) hr
    · rw [mapInsert_ne hcx] at hca
      exact hacc c a hca
  · intro c a hca
    rw [hlocked] at hca
    rw [htx]
    exact hlk c a hca

theorem Db.Inv.keep_chargeback {db : Db} (hinv : db.Inv) {id client : Nat}
    {db1 : Db} (h : db.chargeback id client = .ok db1) : db1.Inv := by
  obtain ⟨hacc, hlk⟩ := hinv
  obtain ⟨hids, hlock, account, a1, hacct, hc, hdb1⟩ := Db.chargeback_ok_inv h
  have haccounts : db1.accounts = mapRemove db.accounts client := by rw [hdb1]
  have hlocked : db1.accountsLocked = mapInsert db.accountsLocked client a1 := by rw [hdb1]
  have htx : db1.txIds = db.txIds := by rw [hdb1]
  constructor
  · intro c a hca
    rw [haccounts] at hca
    rw [htx]
    by_cases hcx : c = client
    · subst hcx
      rw [mapRemove_at] at hca
      cases hca
    · rw [mapRemove_ne hcx] at hca
      exact hacc c a hca
  · intro c a hca
    rw [hlocked] at hca
    rw [htx]
    by_cases hcx : c = client
    · subst hcx
      rw [mapInsert_at] at hca
      cases hca
      exact Account.Wf.of_chargeback (hacc c account hacct) hc
    · rw [mapInsert_ne hcx] at hca
      exact hlk c a hca

theorem Db.Inv.process_ok {db : Db} (hinv : db.Inv) {tx : Tx} {db1 : Db}
    (h : db.process tx = .ok db1) : db1.Inv := by
  unfold Db.process at h
  split at h <;> split at h
  · cases h
  · exact hinv.keep_deposit h
  · cases h
  · exact hinv.keep_withdraw h
  · cases h
  · exact hinv.keep_dispute h
  · cases h
  · exact hinv.keep_resolve h
  · cases h
  · exact hinv.keep_chargeback h

theorem Db.Inv.preserved {db : Db} (hinv : db.Inv) {tx : Tx} {db1 : Db}
    (h : db.after tx = some db1) : db1.Inv := by
  rcases Db.after_some h with hok | ⟨e, herr⟩
  · exact hinv.process_ok hok
  · rw [Db.process_err herr]
    exact hinv

theorem Db.Reachable.inv {db : Db} (h : db.Reachable) : db.Inv := by
  induction h with
  | init => exact Db.Inv.newDb
  | step hr hstep ih => exact ih.preserved hstep

/-! ## Monotonicity of the seen-id set and of the locked partition -/

theorem Db.process_ok_txIds_mono {db : Db} {tx : Tx} {db1 : Db}
    (h : db.process tx = .ok db1) {i : Nat} (hi : db.txIds i = true) :
    db1.txIds i = true := by
  unfold Db.process at h
  split at h <;> split at h
  · cases h
  · obtain ⟨-, -, -, a1, hdb1, -⟩ := Db.deposit_ok_inv h
    rw [hdb1]
    exact setInsert_mono _ hi
  · cases h
  · obtain ⟨-, -, -, account, a1, -, -, hdb1⟩ := Db.withdraw_ok_inv h
    rw [hdb1]
    exact setInsert_mono _ hi
  · cases h
  · obtain ⟨-, -, account, a1, -, -, hdb1⟩ := Db.dispute_ok_inv h
    rw [hdb1]
    exact hi
  · cases h
  · obtain ⟨-, -, account, a1, -, -, hdb1⟩ := Db.resolve_ok_inv h
    rw [hdb1]
    exact hi
  · cases h
  · obtain ⟨-, -, account, a1, -, -, hdb1⟩ := Db.chargeback_ok_inv h
    rw [hdb1]
    exact hi

theorem Db.after_txIds_mono {db : Db} {tx : Tx} {db1 : Db}
    (h : db.after tx = some db1) {i : Nat} (hi : db.txIds i = true) :
    db1.txIds i = true := by
  rcases Db.after_some h with hok | ⟨e, herr⟩
  · exact Db.process_ok_txIds_mono hok hi
  · rw [Db.process_err herr]
    exact hi

theorem Db.process_ok_locked_mono {db : Db} {tx : Tx} {db1 : Db}
    (h : db.process tx = .ok db1) {c : Nat} {a : Account}
    (hc : db.accountsLocked c = some a) : db1.accountsLocked c = some a := by
  unfold Db.process at h
  split at h <;> split at h
  · cases h
  · obtain ⟨-, -, -, a1, hdb1, -⟩ := Db.deposit_ok_inv h
    rw [hdb1]
    exact hc
  · cases h
  · obtain ⟨-, -, -, account, a1, -, -, hdb1⟩ := Db.withdraw_ok_inv h
    rw [hdb1]
    exact hc
  · cases h
  · obtain ⟨-, -, account, a1, -, -, hdb1⟩ := Db.dispute_ok_inv h
    rw [hdb1]
    exact hc
  · cases h
  · obtain ⟨-, -, account, a1, -, -, hdb1⟩ := Db.resolve_ok_inv h
    rw [hdb1]
    exact hc
  · cases h
  · obtain ⟨-, hlock, account, a1, hacct, hcb, hdb1⟩ := Db.chargeback_ok_inv h
    rw [hdb1]
    have hne : c ≠ tx.client := by
      intro he
      subst he
      rw [hc] at hlock
      simp at hlock
    show mapInsert db.accountsLocked tx.client a1 c = some a
    rw [mapInsert_ne hne]
    exact hc

theorem Db.after_locked_mono {db : Db} {tx : Tx} {db1 : Db}
    (h : db.after tx = some db1) {c : Nat} {a : Account}
    (hc : db.accountsLocked c = some a) : db1.accountsLocked c = some a := by
  rcases Db.after_some h with hok | ⟨e, herr⟩
  · exact Db.process_ok_locked_mono hok hc
  · rw [Db.process_err herr]
    exact hc

theorem Db.ReachFrom.txIds_mono {db db2 : Db} (h : Db.ReachFrom db db2) {i : Nat}
    (hi : db.txIds i = true) : db2.txIds i = true := by
  induction h with
  | refl => exact hi
  | step hr hstep ih => exact Db.after_txIds_mono hstep ih

theorem Db.ReachFrom.locked_mono {db db2 : Db} (h : Db.ReachFrom db db2) {c : Nat}
    {a : Account} (hc : db.accountsLocked c = some a) :
    db2.accountsLocked c = some a := by
  induction h with
  | refl => exact hc
  | step hr hstep ih => exact Db.after_locked_mono hstep ih

/-! ## Duplicate-id and locked-account behaviour -/

theorem Db.process_ok_sets_txId {db : Db} {tx : Tx} {db1 : Db}
    (hty : tx.typ = TxType.Deposit ∨ tx.typ = TxType.Withdrawal)
    (h : db.process tx = .ok db1) : db1.txIds tx.tx = true := by
  unfold Db.process at h
  rcases hty with hty | hty <;> simp only [hty] at h <;> split at h
  · cases h
  · obtain ⟨-, -, -, a1, hdb1, -⟩ := Db.deposit_ok_inv h
    rw [hdb1]
    exact setInsert_self _ _
  · cases h
  · obtain ⟨-, -, -, account, a1, -, -, hdb1⟩ := Db.withdraw_ok_inv h
    rw [hdb1]
    exact setInsert_self _ _

theorem Db.process_dup_no_ok {db : Db} {tx : Tx}
    (hty : tx.typ = TxType.Deposit ∨ tx.typ = TxType.Withdrawal)
    (hdup : db.txIds tx.tx = true) {db1 : Db} : ¬db.process tx = .ok db1 := by
  intro h
  unfold Db.process at h
  rcases hty with hty | hty <;> simp only [hty] at h <;> split at h
  · cases h
  · obtain ⟨-, hfresh, -⟩ := Db.deposit_ok_inv h
    rw [hdup] at hfresh
    cases hfresh
  · cases h
  · obtain ⟨-, hfresh, -⟩ := Db.withdraw_ok_inv h
    rw [hdup] at hfresh
    cases hfresh

theorem Db.process_dup_err {db : Db} {tx : Tx}
    (hty : tx.typ = TxType.Deposit ∨ tx.typ = TxType.Withdrawal)
    (hdup : db.txIds tx.tx = true) {amount : Int} (ham : tx.amount = some amount)
    (hnn : 0 ≤ amount) : db.process tx = .err .Duplicate db := by
  have hneg : ¬(amount < 0) := by omega
  rcases hty with hty | hty <;>
    simp [Db.process, hty, ham, Db.deposit, Db.withdraw, Deposit.new, Withdraw.new,
      hneg, hdup]

theorem Db.deposit_locked_err {db : Db} {id client : Nat} {amount : Int}
    (hl : (db.accountsLocked client).isSome = true) :
    ∃ e, db.deposit id client amount = .err e db := by
  unfold Db.deposit
  split
  · exact ⟨_, rfl⟩
  · split
    · exact ⟨.Duplicate, rfl⟩
    · exact ⟨.AccessLocked, rfl⟩

theorem Db.withdraw_locked_err {db : Db} {id client : Nat} {amount : Int}
    (hl : (db.accountsLocked client).isSome = true) :
    ∃ e, db.withdraw id client amount = .err e db := by
  unfold Db.withdraw
  split
  · exact ⟨_, rfl⟩
  · split
    · exact ⟨.Duplicate, rfl⟩
    · exact ⟨.AccessLocked, rfl⟩

theorem Db.dispute_locked_err {db : Db} {id client : Nat}
    (hl : (db.accountsLocked client).isSome = true) :
    ∃ e, db.dispute id client = .err e db := by
  unfold Db.dispute
  split
  · exact ⟨.AccessLocked, rfl⟩
  · exact ⟨.MissingTx, rfl⟩

theorem Db.resolve_locked_err {db : Db} {id client : Nat}
    (hl : (db.accountsLocked client).isSome = true) :
    ∃ e, db.resolve id client = .err e db := by
  unfold Db.resolve
  split
  · exact ⟨.AccessLocked, rfl⟩
  · exact ⟨.MissingTx, rfl⟩

theorem Db.chargeback_locked_err {db : Db} {id client : Nat}
    (hl : (db.accountsLocked client).isSome = true) :
    ∃ e, db.chargeback id client = .err e db := by
  unfold Db.chargeback
  split
  · exact ⟨.AccessLocked, rfl⟩
  · exact ⟨.MissingTx, rfl⟩

theorem Db.process_locked_err {db : Db} {tx : Tx}
    (hl : (db.accountsLocked tx.client).isSome = true) :
    ∃ e, db.process tx = .err e db := by
  unfold Db.process
  rcases htyp : tx.typ <;> rcases ham : tx.amount with - | amount
  · exact ⟨.MissingAmount, rfl⟩
  · exact Db.deposit_locked_err hl
  · exact ⟨.MissingAmount, rfl⟩
  · exact Db.withdraw_locked_err hl
  · exact Db.dispute_locked_err hl
  · exact ⟨.ExtraneousAmount, rfl⟩
  · exact Db.resolve_locked_err hl
  · exact ⟨.ExtraneousAmount, rfl⟩
  · exact Db.chargeback_locked_err hl
  · exact ⟨.ExtraneousAmount, rfl⟩

/-! ## Reachability of the concrete runs -/

theorem dbDep1_reachable : dbDep1.Reachable :=
  @Db.Reachable.step Db.new (Tx.new_deposit 1 1 5) dbDep1 Db.Reachable.init rfl

theorem dbDisp1_reachable : dbDisp1.Reachable :=
  @Db.Reachable.step dbDep1 (Tx.new_dispute 1 1) dbDisp1 dbDep1_reachable rfl

theorem dbLock1_reachable : dbLock1.Reachable :=
  @Db.Reachable.step dbDisp1 (Tx.new_chargeback 1 1) dbLock1 dbDisp1_reachable rfl

/-! ## The claims -/

/-- C1: in every database state reachable by any sequence of `Db::process`
calls from `Db::new`, every account (active or locked) has non-negative
`available` and `held`, and `Account::total` equals `available + held`. -/
theorem spec_c1_account_invariant {db : Db} (hr : db.Reachable) (c : Nat) (a : Account)
    (ha : db.accounts c = some a ∨ db.accountsLocked c = some a) :
    0 ≤ a.available ∧ 0 ≤ a.held ∧ a.total = a.available + a.held := by
  obtain ⟨hacc, hlk⟩ := hr.inv
  rcases ha with ha | ha
  · obtain ⟨h1, h2, -⟩ := hacc c a ha
    exact ⟨h1, h2, rfl⟩
  · obtain ⟨h1, h2, -⟩ := hlk c a ha
    exact ⟨h1, h2, rfl⟩

/-- C1 witness: the account after one concrete deposit. -/
theorem spec_c1_account_invariant_witness :
    0 ≤ accDep1.available ∧ 0 ≤ accDep1.held ∧
      accDep1.total = accDep1.available + accDep1.held :=
  spec_c1_account_invariant dbDep1_reachable 1 accDep1 (Or.inl rfl)

/-- C2 counterexample: with client 1 locked after a chargeback of tx 1, a
later deposit re-presenting tx 1 fails with `Duplicate`, not
`AccessLocked` — the duplicate check precedes the lock check. -/
theorem spec_c2_cex :
    (dbLock1.accountsLocked 1).isSome = true ∧
    dbLock1.process (Tx.new_deposit 1 1 1) = .err .Duplicate dbLock1 ∧
    TxErr.Duplicate ≠ TxErr.AccessLocked :=
  ⟨rfl, rfl, by decide⟩

/-- C2 (amended): once an account is locked, every subsequent record
referencing that client fails with the whole ledger unchanged; the error
is `AccessLocked` exactly when the record passes the upstream validations
(amount shape, and the seen-id checks); and locking is terminal: the
locked entry survives every further processed record. -/
theorem spec_c2_locked_terminal {db : Db} {c : Nat} {a : Account}
    (hl : db.accountsLocked c = some a) :
    (∀ tx : Tx, tx.client = c → ∃ e, db.process tx = .err e db) ∧
    (∀ id amount, db.txIds id = false → ¬amount < 0 →
      db.deposit id c amount = .err .AccessLocked db ∧
      db.withdraw id c amount = .err .AccessLocked db) ∧
    (∀ id, db.txIds id = true →
      db.dispute id c = .err .AccessLocked db ∧
      db.resolve id c = .err .AccessLocked db ∧
      db.chargeback id c = .err .AccessLocked db) ∧
    (∀ db2, Db.ReachFrom db db2 → db2.accountsLocked c = some a) := by
  have hls : (db.accountsLocked c).isSome = true := by rw [hl]; rfl
  refine ⟨?_, ?_, ?_, ?_⟩
  · intro tx hc
    exact Db.process_locked_err (by rw [hc]; exact hls)
  · intro id amount hfresh hneg
    constructor
    · simp [Db.deposit, Deposit.new, hneg, hfresh, hls]
    · simp [Db.withdraw, Withdraw.new, hneg, hfresh, hls]
  · intro id hseen
    refine ⟨?_, ?_, ?_⟩
    · simp [Db.dispute, hseen, hls]
    · simp [Db.resolve, hseen, hls]
    · simp [Db.chargeback, hseen, hls]
  · intro db2 hr
    exact hr.locked_mono hl

/-- C2 witness: a dispute on the locked client fails with `AccessLocked`. -/
theorem spec_c2_locked_terminal_witness :
    dbLock1.dispute 1 1 = .err .AccessLocked dbLock1 :=
  ((@spec_c2_locked_terminal dbLock1 1 accLock1 rfl).2.2.1 1 rfl).1

/-- C3: `Db::process` dispatches on the record tag to the matching one of
the five operations, failing `MissingAmount` when a deposit or withdrawal
record lacks an amount and `ExtraneousAmount` when a dispute, resolve or
chargeback record carries one. -/
theorem spec_c3_dispatch (db : Db) (tx : Tx) :
    (tx.typ = TxType.Deposit → tx.amount = none →
      db.process tx = .err .MissingAmount db) ∧
    (tx.typ = TxType.Withdrawal → tx.amount = none →
      db.process tx = .err .MissingAmount db) ∧
    (tx.typ = TxType.Dispute → ∀ a, tx.amount = some a →
      db.process tx = .err .ExtraneousAmount db) ∧
    (tx.typ = TxType.Resolve → ∀ a, tx.amount = some a →
      db.process tx = .err .ExtraneousAmount db) ∧
    (tx.typ = TxType.Chargeback → ∀ a, tx.amount = some a →
      db.process tx = .err .ExtraneousAmount db) ∧
    (tx.typ = TxType.Deposit → ∀ a, tx.amount = some a →
      db.process tx = db.deposit tx.tx tx.client a) ∧
    (tx.typ = TxType.Withdrawal → ∀ a, tx.amount = some a →
      db.process tx = db.withdraw tx.tx tx.client a) ∧
    (tx.typ = TxType.Dispute → tx.amount = none →
      db.process tx = db.dispute tx.tx tx.client) ∧
    (tx.typ = TxType.Resolve → tx.amount = none →
      db.process tx = db.resolve tx.tx tx.client) ∧
    (tx.typ = TxType.Chargeback → tx.amount = none →
      db.process tx = db.chargeback tx.tx tx.client) := by
  refine ⟨?_, ?_, ?_, ?_, ?_, ?_, ?_, ?_, ?_, ?_⟩ <;> intro hty
  · intro ham
    simp [Db.process, hty, ham]
  · intro ham
    simp [Db.process, hty, ham]
  · intro a ham
    simp [Db.process, hty, ham]
  · intro a ham
    simp [Db.process, hty, ham]
  · intro a ham
    simp [Db.process, hty, ham]
  · intro a ham
    simp [Db.process, hty, ham]
  · intro a ham
    simp [Db.process, hty, ham]
  · intro ham
    simp [Db.process, hty, ham]
  · intro ham
    simp [Db.process, hty, ham]
  · intro ham
    simp [Db.process, hty, ham]

/-- C3 witness: a deposit without an amount and a dispute record at
concrete inputs. -/
theorem spec_c3_dispatch_witness :
    Db.new.process { typ := .Deposit, client := 1, tx := 1, amount := none } =
      .err .MissingAmount Db.new ∧
    Db.new.process (Tx.new_dispute 1 1) = Db.new.dispute 1 1 :=
  ⟨(spec_c3_dispatch Db.new
      { typ := .Deposit, client := 1, tx := 1, amount := none }).1 rfl rfl,
    (spec_c3_dispatch Db.new (Tx.new_dispute 1 1)).2.2.2.2.2.2.2.1 rfl rfl⟩

/-- C4 counterexample: after tx 1 is accepted by a deposit, a second
deposit re-presenting tx 1 with a negative amount fails with
`NegativeAmount`, not `Duplicate` — the amount validation precedes the
duplicate check in `Db::deposit`. -/
theorem spec_c4_cex :
    Db.new.process (Tx.new_deposit 1 1 5) = .ok dbDep1 ∧
    dbDep1.process { typ := .Deposit, client := 1, tx := 1, amount := some (-1) } =
      .err .NegativeAmount dbDep1 ∧
    TxErr.NegativeAmount ≠ TxErr.Duplicate :=
  ⟨rfl, rfl, by decide⟩

/-- C4 (amended): once a transaction id has been accepted by a deposit or
withdrawal, every later deposit or withdrawal presenting the same id is
rejected with the ledger unchanged — with error `Duplicate` whenever the
record carries a present, non-negative amount — and is never accepted
again. -/
theorem spec_c4_txid_unique {db db1 db2 : Db} {tx tx2 : Tx}
    (hty : tx.typ = TxType.Deposit ∨ tx.typ = TxType.Withdrawal)
    (hok : db.process tx = .ok db1)
    (hreach : Db.ReachFrom db1 db2)
    (hty2 : tx2.typ = TxType.Deposit ∨ tx2.typ = TxType.Withdrawal)
    (hid : tx2.tx = tx.tx) :
    (∀ db3, ¬db2.process tx2 = .ok db3) ∧
    (∀ e db3, db2.process tx2 = .err e db3 → db3 = db2) ∧
    (∀ amount, tx2.amount = some amount → 0 ≤ amount →
      db2.process tx2 = .err .Duplicate db2) := by
  have hseen : db2.txIds tx2.tx = true := by
    rw [hid]
    exact hreach.txIds_mono (Db.process_ok_sets_txId hty hok)
  exact ⟨fun db3 => Db.process_dup_no_ok hty2 hseen,
    fun e db3 h => Db.process_err h,
    fun amount ham hnn => Db.process_dup_err hty2 hseen ham hnn⟩

/-- C4 witness: re-presenting tx 1 in a fresh deposit right after its
acceptance yields `Duplicate` with the state unchanged. -/
theorem spec_c4_txid_unique_witness :
    dbDep1.process (Tx.new_deposit 1 1 7) = .err .Duplicate dbDep1 :=
  ((@spec_c4_txid_unique Db.new dbDep1 dbDep1 (Tx.new_deposit 1 1 5)
      (Tx.new_deposit 1 1 7) (Or.inl rfl) rfl (Db.ReachFrom.refl dbDep1)
      (Or.inl rfl) rfl).2.2) 7 rfl (by decide)

/-- C5: whenever `Db::process` returns an error, the state it leaves
behind is exactly the input state — every operation is all-or-nothing; in
particular a dispute failing with `Insufficient` puts the removed deposit
back, and a failed first deposit creates no account. -/
theorem spec_c5_all_or_nothing {db : Db} {tx : Tx} {e : TxErr} {db1 : Db}
    (h : db.process tx = .err e db1) : db1 = db :=
  Db.process_err h

/-- C5 witness: the put-back state of a dispute that fails with
`Insufficient` equals the state before the dispute. -/
theorem spec_c5_all_or_nothing_witness : dbWd1d = dbWd1 :=
  @spec_c5_all_or_nothing dbWd1 (Tx.new_dispute 1 1) TxErr.Insufficient dbWd1d rfl

/-- C6 counterexample: a dispute whose transaction id was never seen fails
with `MissingTx`, which is neither of the errors the claim names. -/
theorem spec_c6_cex :
    Db.new.process (Tx.new_dispute 99 1) = .err .MissingTx Db.new ∧
    TxErr.MissingTx ≠ TxErr.MissingTxForClient ∧
    TxErr.MissingTx ≠ TxErr.AccessUnavailable :=
  ⟨rfl, by decide, by decide⟩

/-- C6 (amended): a dispute referencing an id never accepted by any
deposit or withdrawal fails with `MissingTx` and changes nothing; in all
cases `Db::dispute` never adds to the seen-id set and never creates or
removes an account. -/
theorem spec_c6_dispute_no_side_effects (db : Db) (id client : Nat) :
    (db.txIds id = false → db.dispute id client = .err .MissingTx db) ∧
    (∀ e db1, db.dispute id client = .err e db1 → db1 = db) ∧
    (∀ db1, db.dispute id client = .ok db1 → db1.txIds = db.txIds ∧
      db1.accountsLocked = db.accountsLocked ∧
      ∀ c, (db1.accounts c).isSome = (db.accounts c).isSome) := by
  refine ⟨?_, ?_, ?_⟩
  · intro hni
    unfold Db.dispute
    rw [if_neg (by simp [hni])]
  · intro e db1 h
    exact Db.dispute_err_inv h
  · intro db1 h
    obtain ⟨-, -, account, a1, hacct, -, hdb1⟩ := Db.dispute_ok_inv h
    refine ⟨by rw [hdb1], by rw [hdb1], ?_⟩
    intro c
    rw [hdb1]
    show (mapInsert db.accounts client a1 c).isSome = (db.accounts c).isSome
    by_cases hc : c = client
    · subst hc
      rw [mapInsert_at, hacct]
      rfl
    · rw [mapInsert_ne hc]

/-- C6 witness: the never-seen id 99 on the empty database. -/
theorem spec_c6_dispute_no_side_effects_witness :
    Db.new.dispute 99 1 = .err .MissingTx Db.new :=
  (spec_c6_dispute_no_side_effects Db.new 99 1).1 rfl

/-- C7: for a record with matching client, `Account::deposit` returns
`Overflow` exactly when `available + amount` or `total + amount` leaves
the representable range of the decimal type; every error it returns is
`Overflow` with the account untouched; and on success `available` grows by
exactly the amount, the deposit is recorded in the released-deposits map,
and the held side is unchanged. -/
theorem spec_c7_deposit_overflow (a : Account) (tx : Deposit) (h : a.id = tx.client) :
    ((∃ a1, a.deposit tx = .err .Overflow a1) ↔
      (checkedAdd a.available tx.amount = none ∨ checkedAdd a.total tx.amount = none)) ∧
    (∀ e a1, a.deposit tx = .err e a1 → e = .Overflow ∧ a1 = a) ∧
    (∀ a1, a.deposit tx = .ok a1 →
      a1.available = a.available + tx.amount ∧ a1.held = a.held ∧
        a1.deposits tx.id = some tx ∧ a1.depositsHeld = a.depositsHeld) := by
  refine ⟨⟨?_, ?_⟩, ?_, ?_⟩
  · rintro ⟨a1, he⟩
    unfold Account.deposit at he
    rw [if_pos h] at he
    split at he
    · rename_i hnone
      exact .inr hnone
    · split at he
      · cases he
      · rename_i hnone
        exact .inl hnone
  · intro hor
    unfold Account.deposit
    rw [if_pos h]
    rcases hor with hor | hor
    · split
      · exact ⟨a, rfl⟩
      · rw [hor]
        exact ⟨a, rfl⟩
    · split
      · exact ⟨a, rfl⟩
      · rename_i s hs
        rw [hor] at hs
        cases hs
  · intro e a1 he
    exact ⟨(Account.deposit_err he).2, (Account.deposit_err he).1⟩
  · intro a1 h1
    obtain ⟨-, -, hdb⟩ := Account.deposit_ok h1
    refine ⟨by rw [hdb], by rw [hdb], ?_, by rw [hdb]⟩
    rw [hdb]
    exact mapInsert_at _ _ _

/-- C7 witness: depositing 5 into a fresh account for client 1. -/
theorem spec_c7_deposit_overflow_witness :
    accW7.available = (Account.new 1).available + 5 ∧
    accW7.held = (Account.new 1).held ∧
    accW7.deposits 1 = some { id := 1, client := 1, amount := 5 } ∧
    accW7.depositsHeld = (Account.new 1).depositsHeld :=
  (spec_c7_deposit_overflow (Account.new 1)
    { id := 1, client := 1, amount := 5 } rfl).2.2 accW7 rfl

/-- C8: in every reachable state, no transaction id is simultaneously in
an account's released-deposits map and its held-deposits map: each deposit
— and hence its amount, reflected in `available` while released and in
`held` while held — lives in exactly one of the two maps. -/
theorem spec_c8_deposit_exclusivity {db : Db} (hr : db.Reachable) (c : Nat)
    (a : Account) (ha : db.accounts c = some a ∨ db.accountsLocked c = some a)
    (i : Nat) :
    ¬((a.deposits i).isSome = true ∧ (a.depositsHeld i).isSome = true) := by
  obtain ⟨hacc, hlk⟩ := hr.inv
  rcases ha with ha | ha
  · exact (hacc c a ha).2.2.1 i
  · exact (hlk c a ha).2.2.1 i

/-- C8 witness: the account after one concrete deposit, at tx id 1. -/
theorem spec_c8_deposit_exclusivity_witness :
    ¬((accDep1.deposits 1).isSome = true ∧ (accDep1.depositsHeld 1).isSome = true) :=
  spec_c8_deposit_exclusivity dbDep1_reachable 1 accDep1 (Or.inl rfl) 1

/-- C9: `Deposit::new` and `Withdraw::new` succeed (returning the record
verbatim) exactly when the amount is non-negative and fail with
`NegativeAmount` exactly otherwise; both are pure value checks that take
no ledger or account state. -/
theorem spec_c9_constructor_validation (id client : Nat) (amount : Int) :
    (Deposit.new id client amount =
        .ok { id := id, client := client, amount := amount } ↔ 0 ≤ amount) ∧
    (Deposit.new id client amount = .error .NegativeAmount ↔ amount < 0) ∧
    (Withdraw.new id client amount =
        .ok { id := id, client := client, amount := amount } ↔ 0 ≤ amount) ∧
    (Withdraw.new id client amount = .error .NegativeAmount ↔ amount < 0) := by
  unfold Deposit.new Withdraw.new
  by_cases h : amount < 0
  · simp [h]
  · simp [h]
    omega

/-- C10: evaluation at the failing input. `Account::resolve` invoked with
a record whose client field (2) differs from the account's id (1) does not
abort: it succeeds and releases the held deposit; the sibling operations
deposit, withdraw and dispute all abort on the same mismatch. -/
theorem spec_c10_resolve_no_assert :
    accC10.resolve { id := 1, client := 2 } = .ok accC10res ∧
    accC10res.available = 5 ∧ accC10res.held = 0 ∧
    accC10.deposit { id := 2, client := 2, amount := 1 } = .panic ∧
    accC10.withdraw { id := 2, client := 2, amount := 1 } = .panic ∧
    accC10.dispute { id := 1, client := 2 } = .panic :=
  ⟨rfl, rfl, rfl, rfl, rfl, rfl⟩

end TxEngine
